import Mathlib

/-!
# Verification of the toggleai in-memory search engine

Shallow embedding of the core of `src/engines.py` and `src/util.py`:
the term normalizer (`_clean_string`), the fuzzy index builder
(`_build_index` / `_fuzzify`), the query evaluator (`evaluate_query` /
`_get_results` / `_validate_query`), the result sorter (`_sort_results`),
the identifier sanitizer (`make_python_identifier`) and the JSON result
envelope (`Results.to_json`).

Python strings are modelled as `List Char`; the ASCII fragment of
`str.lower`, `string.punctuation` and `str.split()` whitespace is modelled
exactly (the corpus and queries of the service are ASCII).  Machine-level
details that the claims do not touch (file IO, logging, timing) are
parameters: the elapsed nanoseconds measured by the timer is an explicit
argument of the evaluator.
-/

abbrev Str := List Char

/-- ASCII fragment of Python `str.lower` applied to one character:
uppercase `A`..`Z` (codes 65..90) is shifted by 32, all else unchanged. -/
def lowerChar (c : Char) : Char :=
  if 65 ≤ c.toNat ∧ c.toNat ≤ 90 then Char.ofNat (c.toNat + 32) else c

/-- Membership in Python `string.punctuation`
(ASCII codes 33..47, 58..64, 91..96, 123..126). -/
def isPunctChar (c : Char) : Bool :=
  (33 ≤ c.toNat && c.toNat ≤ 47) || (58 ≤ c.toNat && c.toNat ≤ 64) ||
    (91 ≤ c.toNat && c.toNat ≤ 96) || (123 ≤ c.toNat && c.toNat ≤ 126)

/-- The whitespace class of Python `str.split()` / `str.strip()` / `\s`
(ASCII): space, tab, newline, carriage return, vertical tab, form feed. -/
def isWSChar (c : Char) : Bool :=
  c.toNat == 32 || c.toNat == 9 || c.toNat == 10 || c.toNat == 13 ||
    c.toNat == 11 || c.toNat == 12

/-- `IndexSearchEngine._clean_string`:
`term.lower().translate(str.maketrans('', '', string.punctuation))`. -/
def cleanString (s : Str) : Str :=
  (s.map lowerChar).filter (fun c => !isPunctChar c)

/-- Helper for `splitWS`: `cur` is the reversed current token. -/
def splitWSAux : Str → Str → List Str
  | [], cur => if cur.isEmpty then [] else [cur.reverse]
  | c :: cs, cur =>
    if isWSChar c then
      if cur.isEmpty then splitWSAux cs [] else cur.reverse :: splitWSAux cs []
    else splitWSAux cs (c :: cur)

/-- Python `str.split()` with no separator: split on runs of whitespace,
dropping empty tokens. -/
def splitWS (s : Str) : List Str := splitWSAux s []

/-- Python `str.strip()`: remove leading and trailing whitespace. -/
def pyStrip (s : Str) : Str :=
  ((s.dropWhile isWSChar).reverse.dropWhile isWSChar).reverse

/-- `FuzzySearchEngine._fuzzify`:
`[word[:n] for n in range(3, len(word) + 1)]` with `word` appended. -/
def fuzzify (w : Str) : List Str :=
  ((List.range' 3 (w.length + 1 - 3)).map (fun n => w.take n)) ++ [w]

/-- One corpus row: the namedtuple `Document` built by `_load_corpus`,
with its (sanitized) field names and the row's field values. -/
structure Document where
  fields : List Str
  values : List Str
deriving DecidableEq

instance : Inhabited Document := ⟨⟨[], []⟩⟩

/-- `' '.join(document)`: the field values joined by single spaces
(a namedtuple iterates over its values). -/
def joinVals (d : Document) : Str :=
  List.intercalate [' '] d.values

/-- All index terms contributed by one document in `_build_index`:
every fuzzification of every whitespace token of the cleaned joined text. -/
def docTerms (d : Document) : List Str :=
  (splitWS (cleanString (joinVals d))).flatMap fuzzify

/-- The set of corpus positions stored under term `t` in the index built by
`_build_index`, as the ascending list of positions.  The Python dict maps
`t` to this set when it is non-empty and has no entry for `t` otherwise;
`_get_results` treats both `None` and an empty set alike (`if match:`), so
the dict is represented extensionally by this function. -/
def termPositions (corpus : List Document) (t : Str) : List Nat :=
  (List.range corpus.length).filter
    (fun p => decide (t ∈ docTerms (corpus.getD p default)))

/-- Intersection of two position sets, keeping the left list's order
(Python `set.intersection`, represented on ascending lists). -/
def interList (a b : List Nat) : List Nat :=
  a.filter (fun x => decide (x ∈ b))

/-- `IndexSearchEngine._get_results`: look every term of the cleaned query
up in the index, skip terms with no entry, intersect the rest and
materialize the documents at the resulting positions. -/
def getResults (corpus : List Document) (q : Str) : List Document :=
  let sets := ((splitWS q).map (termPositions corpus)).filter (fun l => !l.isEmpty)
  match sets with
  | [] => []
  | s :: rest => (rest.foldl interList s).map (fun p => corpus.getD p default)

/-- Characters kept by `re.sub('[^0-9a-zA-Z_]', '', s)`. -/
def isIdentChar (c : Char) : Bool :=
  (48 ≤ c.toNat && c.toNat ≤ 57) || (65 ≤ c.toNat && c.toNat ≤ 90) ||
    (97 ≤ c.toNat && c.toNat ≤ 122) || c.toNat == 95

/-- Characters allowed to lead an identifier, for
`re.sub('^[^a-zA-Z_]+', '', s)`. -/
def isLeadIdentChar (c : Char) : Bool :=
  (65 ≤ c.toNat && c.toNat ≤ 90) || (97 ≤ c.toNat && c.toNat ≤ 122) ||
    c.toNat == 95

/-- Helper for `collapseWS`: `inRun` records whether the previous
character was whitespace (its underscore already emitted). -/
def collapseWSAux : Str → Bool → Str
  | [], _ => []
  | c :: cs, inRun =>
    if isWSChar c then
      if inRun then collapseWSAux cs true else '_' :: collapseWSAux cs true
    else c :: collapseWSAux cs false

/-- `re.sub('[\s\t\n]+', '_', s)`: replace each maximal whitespace run by
one underscore. -/
def collapseWS (s : Str) : Str := collapseWSAux s false

/-- `keyword.kwlist` of Python 3. -/
def pyKeywords : List Str :=
  ["False".data, "None".data, "True".data, "and".data, "as".data,
   "assert".data, "async".data, "await".data, "break".data, "class".data,
   "continue".data, "def".data, "del".data, "elif".data, "else".data,
   "except".data, "finally".data, "for".data, "from".data, "global".data,
   "if".data, "import".data, "in".data, "is".data, "lambda".data,
   "nonlocal".data, "not".data, "or".data, "pass".data, "raise".data,
   "return".data, "try".data, "while".data, "with".data, "yield".data]

/-- `util.make_python_identifier`: lowercase, strip, collapse whitespace to
underscores, drop invalid characters, drop leading non-letter characters,
then avoid Python keywords.  The Python `while s in kwlist: s += '_1'`
loop runs at most once because no keyword contains an underscore or a
digit, so it is embedded as a single conditional append. -/
def makePythonIdentifier (s : Str) : Str :=
  let s1 := s.map lowerChar
  let s2 := pyStrip s1
  let s3 := collapseWS s2
  let s4 := s3.filter isIdentChar
  let s5 := s4.dropWhile (fun c => !isLeadIdentChar c)
  if s5 ∈ pyKeywords then s5 ++ "_1".data else s5

/-- The exceptions `evaluate_query` can raise: `InvalidQueryError` from
`_validate_query`; the `AttributeError` raised by `_sort_results` for a
sort field that resolves to no attribute (carrying the offending sanitized
name and the valid field names it reports); the uncaught `AttributeError`
raised inside `_clean_string` when `getattr` resolved the sort field to an
inherited non-string attribute such as the tuple method `count` (its
message — object has no attribute lower — does not name the valid
fields); and the `IndexError` from `query.split()[0]` when the cleaned
query has no tokens. -/
inductive QueryError where
  | invalidQuery (msg : Str)
  | attributeError (sortBy : Str) (validFields : List Str)
  | attributeErrorNoLower
  | indexError
deriving DecidableEq

/-- `f"Query must be at least {n} characters"`. -/
def invalidQueryMsg (n : Nat) : Str :=
  "Query must be at least ".data ++ (toString n).data ++ " characters".data

/-- `FuzzySearchEngine._validate_query` with its default `n = 3`:
`some` error when the stripped query is shorter than `n`. -/
def validateQuery (q : Str) (n : Nat) : Option QueryError :=
  if (pyStrip q).length < n then some (.invalidQuery (invalidQueryMsg n))
  else none

/-- Python `s.startswith(t)` on `List Char` (`t` is the needle). -/
def startsWith : Str → Str → Bool
  | [], _ => true
  | _ :: _, [] => false
  | a :: as, b :: bs => a == b && startsWith as bs

/-- Python `t in s` on strings: `t` occurs as a contiguous segment of `s`. -/
def containsSeg (t : Str) : Str → Bool
  | [] => startsWith t []
  | s@(_ :: cs) => startsWith t s || containsSeg t cs

/-- Resolution of `f` among the declared namedtuple fields: the value of
the first field named `f`, if any. -/
def getField (d : Document) (f : Str) : Option Str :=
  (d.fields.zip d.values).lookup f

/-- A value obtained from `getattr` on the namedtuple: either a Python
string (a field value) or a non-string object (a bound method, tuple or
dict inherited from the tuple and namedtuple machinery). -/
inductive PyValue where
  | pstr (s : Str)
  | pobj
deriving DecidableEq

/-- The non-dunder attributes a namedtuple instance resolves besides its
declared fields: the tuple methods and the namedtuple helpers.  All of
them are non-string objects.  A declared field of the same name shadows
the inherited attribute (`namedtuple` permits `count` and `index` as
field names). -/
def tupleAttrNames : List Str :=
  ["count".data, "index".data, "_asdict".data, "_field_defaults".data,
   "_fields".data, "_make".data, "_replace".data]

/-- `getattr(doc, f)` on the namedtuple: a declared field resolves to its
string value (field descriptors shadow same-named inherited methods); the
inherited tuple/namedtuple API resolves to a non-string object; any other
name raises `AttributeError`.  Dunder attributes of the object protocol
(names beginning with a double underscore, such as string-valued
`__doc__`) are not modelled; the theorems about the sorter keep such
names out of their hypotheses. -/
def getAttr (d : Document) (f : Str) : Option PyValue :=
  match getField d f with
  | some v => some (.pstr v)
  | none => if f ∈ tupleAttrNames then some .pobj else none

/-- The cleaned text of a document's sort field (`text_clean` /
`haystack` in `_sort_results`). -/
def sortFieldText (sb : Str) (d : Document) : Str :=
  cleanString ((getField d sb).getD [])

/-- The partition test of `_sort_results`: `term in text_clean`. -/
def sortableB (term sb : Str) (d : Document) : Bool :=
  containsSeg term (sortFieldText sb d)

/-- The `sorter` key of `_sort_results`: the index of the first whitespace
token of the cleaned sort field that contains the anchor term.
Python indexes `positions[0]` and would raise on a document whose field
does not contain the term; `findIdx` returns the token count there, a
value never used because such documents are filtered into `the_rest`. -/
def sortKeyD (term sb : Str) (d : Document) : Nat :=
  (splitWS (sortFieldText sb d)).findIdx (fun tok => containsSeg term tok)

/-- The partition loop of `_sort_results`: split the results into the
documents whose cleaned sort field contains the anchor term and the rest.
At the first document where `getattr` raises, the guided `AttributeError`
naming the valid fields is raised; where `getattr` yields a non-string
inherited attribute, `_clean_string` (called outside the `try`) raises
the uncaught `AttributeError` about the missing `lower` method. -/
def partitionSortable (term sb : Str) :
    List Document → Except QueryError (List Document × List Document)
  | [] => .ok ([], [])
  | d :: ds =>
    match getAttr d sb with
    | none => .error (.attributeError sb d.fields)
    | some .pobj => .error .attributeErrorNoLower
    | some (.pstr text) =>
      match partitionSortable term sb ds with
      | .error e => .error e
      | .ok (ts, rs) =>
        if containsSeg term (cleanString text) then .ok (d :: ts, rs)
        else .ok (ts, d :: rs)

/-- `FuzzySearchEngine._sort_results`: anchor on the first term of the
cleaned query (`query.split()[0]`, an `IndexError` when there is none),
sanitize the sort field name, partition, stably sort the sortable part
ascending by `sortKeyD` (Python `sorted` is a stable merge sort) and
append the rest in their original order. -/
def sortResults (query : Str) (results : List Document) (sortBy : Str) :
    Except QueryError (List Document) :=
  match splitWS query with
  | [] => .error .indexError
  | term :: _ =>
    let sb := makePythonIdentifier sortBy
    match partitionSortable term sb results with
    | .error e => .error e
    | .ok (toSort, theRest) =>
      .ok ((toSort.mergeSort
        (fun a b => decide (sortKeyD term sb a ≤ sortKeyD term sb b))) ++ theRest)

/-- The state of a built `FuzzySearchEngine`: its corpus.  The index is
determined by the corpus (`termPositions`); `evaluate_query` reads both
and writes neither, which the explicit state-passing embedding reflects
by returning the engine alongside the result. -/
structure Engine where
  corpus : List Document
deriving DecidableEq

/-- `util.Results`: the envelope built at the end of `evaluate_query`.
`__init__` multiplies the nanosecond duration by `1e-6`, so the stored
execution time is milliseconds. -/
structure ResultsE where
  query : Str
  data : List Document
  executionTimeMs : ℚ
deriving DecidableEq

/-- `IndexSearchEngine.evaluate_query(query, sort_by)`: validate, clean,
look up, optionally sort (`if sort_by:` is Python truthiness, so `none`
and the empty string both skip sorting), and wrap the original query and
the elapsed time.  `elapsedNs` is the value of
`time.time_ns() - t1` measured by the caller's clock. -/
def evaluateQueryExc (e : Engine) (query : Str) (sortBy : Option Str)
    (elapsedNs : Nat) : Except QueryError ResultsE :=
  match validateQuery query 3 with
  | some err => .error err
  | none =>
    let qc := cleanString query
    let res := getResults e.corpus qc
    let afterSort : Except QueryError (List Document) :=
      match sortBy with
      | some sb => if sb ≠ [] then sortResults qc res sb else .ok res
      | none => .ok res
    match afterSort with
    | .error err => .error err
    | .ok rs => .ok ⟨query, rs, (elapsedNs : ℚ) * (1 / 1000000)⟩

/-- The full call as seen by the caller: the outcome (envelope or raised
exception) together with the engine state after the call. -/
def evaluateQuery (e : Engine) (query : Str) (sortBy : Option Str)
    (elapsedNs : Nat) : Except QueryError ResultsE × Engine :=
  (evaluateQueryExc e query sortBy elapsedNs, e)

/-- A JSON value, for the envelope schema of `Results.to_json`. -/
inductive Json where
  | jstr (s : Str)
  | jnum (q : ℚ)
  | jarr (elems : List Json)
  | jobj (members : List (Str × Json))

/-- `dict(zip(document._fields, document))`: one result row as an ordered
field-name-to-value object. -/
def docJson (d : Document) : Json :=
  .jobj ((d.fields.zip d.values).map (fun fv => (fv.1, .jstr fv.2)))

/-- `Results.to_json`. -/
def resultsToJson (r : ResultsE) : Json :=
  .jobj
    [("meta".data, .jobj
        [("query".data, .jstr r.query),
         ("execution_time_ms".data, .jnum r.executionTimeMs)]),
     ("data".data, .jarr (r.data.map docJson))]

/-! ## Concrete sample corpora used to evaluate the theorems -/

def sampleFields : List Str := ["document".data, "headerb".data]

def sampleDoc : Document :=
  ⟨sampleFields, ["Document1".data, "Hello World".data]⟩

def sampleEngine : Engine := ⟨[sampleDoc]⟩

def pairDoc1 : Document :=
  ⟨sampleFields, ["alpha beta".data, "one".data]⟩

def pairDoc2 : Document :=
  ⟨sampleFields, ["alpha gamma".data, "two".data]⟩

def pairEngine : Engine := ⟨[pairDoc1, pairDoc2]⟩

def sortDocA : Document :=
  ⟨sampleFields, ["DocA".data, "red red target".data]⟩

def sortDocB : Document :=
  ⟨sampleFields, ["DocB".data, "target blue blue".data]⟩

def sortDocC : Document :=
  ⟨sampleFields, ["DocC".data, "blue target blue".data]⟩

def sortDocD : Document :=
  ⟨sampleFields, ["DocD".data, "nothing here".data]⟩

def emptyEngine : Engine := ⟨[]⟩

/-! ## Character-level lemmas -/

theorem charOfNat_toNat_small : ∀ n, n < 128 → (Char.ofNat n).toNat = n := by
  decide

theorem lowerChar_idem (c : Char) : lowerChar (lowerChar c) = lowerChar c := by
  unfold lowerChar
  by_cases h : 65 ≤ c.toNat ∧ c.toNat ≤ 90
  · rw [if_pos h]
    have h1 : (Char.ofNat (c.toNat + 32)).toNat = c.toNat + 32 :=
      charOfNat_toNat_small _ (by omega)
    rw [if_neg (by rw [h1]; omega)]
  · rw [if_neg h, if_neg h]

/-! ## Unfolding equations for `splitWS` -/

theorem splitWSAux_ne (s : Str) : ∀ cur : Str, cur ≠ [] →
    splitWSAux s cur = (cur.reverse ++ s.takeWhile (fun x => !isWSChar x)) ::
      splitWS (s.dropWhile (fun x => !isWSChar x)) := by
  induction s with
  | nil =>
    intro cur h
    simp [splitWSAux, splitWS, h]
  | cons c cs ih =>
    intro cur h
    by_cases hw : isWSChar c
    · simp only [splitWSAux, hw, if_true, List.isEmpty_eq_true, h, if_false,
        List.takeWhile_cons, Bool.not_true, List.dropWhile_cons]
      simp [splitWS, splitWSAux, hw]
    · simp only [splitWSAux, hw, if_false, List.takeWhile_cons,
        Bool.not_false, if_true, List.dropWhile_cons]
      rw [ih (c :: cur) (by simp)]
      simp

theorem splitWS_nil : splitWS [] = [] := rfl

theorem splitWS_cons_ws {c : Char} (cs : Str) (h : isWSChar c = true) :
    splitWS (c :: cs) = splitWS cs := by
  simp [splitWS, splitWSAux, h]

theorem splitWS_cons_tok {c : Char} (cs : Str) (h : isWSChar c = false) :
    splitWS (c :: cs) = (c :: cs.takeWhile (fun x => !isWSChar x)) ::
      splitWS (cs.dropWhile (fun x => !isWSChar x)) := by
  show splitWSAux (c :: cs) [] = _
  simp only [splitWSAux, h, if_false]
  rw [splitWSAux_ne cs [c] (by simp)]
  simp

/-! ## Lemmas about `cleanString` -/

theorem mem_cleanString {c : Char} {s : Str} (h : c ∈ cleanString s) :
    lowerChar c = c ∧ isPunctChar c = false := by
  unfold cleanString at h
  rcases List.mem_filter.mp h with ⟨hm, hp⟩
  rcases List.mem_map.mp hm with ⟨c0, _, rfl⟩
  exact ⟨lowerChar_idem c0, by simpa using hp⟩

theorem cleanString_fixed : ∀ s : Str,
    (∀ c ∈ s, lowerChar c = c ∧ isPunctChar c = false) → cleanString s = s := by
  intro s
  induction s with
  | nil => intro _; rfl
  | cons c cs ih =>
    intro h
    have hc := h c (List.mem_cons_self c cs)
    show ((c :: cs).map lowerChar).filter (fun x => !isPunctChar x) = c :: cs
    rw [List.map_cons, hc.1, List.filter_cons, if_pos (by simp [hc.2])]
    exact congrArg (c :: ·) (ih (fun x hx => h x (List.mem_cons_of_mem c hx)))

/-! ## `takeWhile` / `dropWhile` helpers -/

theorem dropWhile_eq_self_of_all {α} {p : α → Bool} :
    ∀ {l : List α}, (∀ c ∈ l, p c = false) → l.dropWhile p = l
  | [], _ => rfl
  | c :: cs, h => by
    rw [List.dropWhile_cons, if_neg]
    simp [h c (List.mem_cons_self c cs)]

theorem takeWhile_eq_self_of_all {α} {p : α → Bool} {l : List α}
    (h : ∀ c ∈ l, p c = true) : l.takeWhile p = l :=
  List.takeWhile_eq_self_iff.mpr h

theorem dropWhile_eq_nil_of_all {α} {p : α → Bool} {l : List α}
    (h : ∀ c ∈ l, p c = true) : l.dropWhile p = [] :=
  List.dropWhile_eq_nil_iff.mpr h

theorem takeWhile_append_all {α} {p : α → Bool} {l₁ l₂ : List α}
    (h : ∀ c ∈ l₁, p c = true) :
    (l₁ ++ l₂).takeWhile p = l₁ ++ l₂.takeWhile p := by
  rw [List.takeWhile_append, if_pos]
  rw [takeWhile_eq_self_of_all h]

theorem dropWhile_append_all {α} {p : α → Bool} {l₁ l₂ : List α}
    (h : ∀ c ∈ l₁, p c = true) :
    (l₁ ++ l₂).dropWhile p = l₂.dropWhile p := by
  rw [List.dropWhile_append, if_pos]
  rw [dropWhile_eq_nil_of_all h]
  rfl

/-! ## Lemmas about `splitWS` -/

theorem splitWS_tok_aux : ∀ (n : Nat) (s : Str), s.length ≤ n →
    ∀ tok ∈ splitWS s, tok ≠ [] ∧ ∀ c ∈ tok, isWSChar c = false := by
  intro n
  induction n with
  | zero =>
    intro s hs
    have hnil : s = [] := List.eq_nil_of_length_eq_zero (Nat.le_zero.mp hs)
    subst hnil
    simp [splitWS_nil]
  | succ n ih =>
    intro s hs tok htok
    match s with
    | [] => simp [splitWS_nil] at htok
    | c :: cs =>
      have hcs : cs.length ≤ n := by simpa using hs
      by_cases hw : isWSChar c
      · rw [splitWS_cons_ws cs hw] at htok
        exact ih cs hcs tok htok
      · rw [splitWS_cons_tok cs (by simpa using hw)] at htok
        rcases List.mem_cons.mp htok with h1 | h2
        · subst h1
          refine ⟨by simp, ?_⟩
          intro x hx
          rcases List.mem_cons.mp hx with rfl | hx'
          · simpa using hw
          · simpa using List.mem_takeWhile_imp hx'
        · exact ih _ (le_trans (List.dropWhile_sublist _).length_le hcs) tok h2

theorem splitWS_tok {s tok : Str} (h : tok ∈ splitWS s) :
    tok ≠ [] ∧ ∀ c ∈ tok, isWSChar c = false :=
  splitWS_tok_aux s.length s le_rfl tok h

theorem splitWS_subset_aux : ∀ (n : Nat) (s : Str), s.length ≤ n →
    ∀ tok ∈ splitWS s, ∀ c ∈ tok, c ∈ s := by
  intro n
  induction n with
  | zero =>
    intro s hs
    have hnil : s = [] := List.eq_nil_of_length_eq_zero (Nat.le_zero.mp hs)
    subst hnil
    simp [splitWS_nil]
  | succ n ih =>
    intro s hs tok htok c hc
    match s with
    | [] => simp [splitWS_nil] at htok
    | b :: cs =>
      have hcs : cs.length ≤ n := by simpa using hs
      by_cases hw : isWSChar b
      · rw [splitWS_cons_ws cs hw] at htok
        exact List.mem_cons_of_mem b (ih cs hcs tok htok c hc)
      · rw [splitWS_cons_tok cs (by simpa using hw)] at htok
        rcases List.mem_cons.mp htok with h1 | h2
        · subst h1
          rcases List.mem_cons.mp hc with rfl | hc'
          · exact List.mem_cons_self c cs
          · exact List.mem_cons_of_mem b ((List.takeWhile_sublist _).subset hc')
        · have := ih _ (le_trans (List.dropWhile_sublist _).length_le hcs) tok h2 c hc
          exact List.mem_cons_of_mem b ((List.dropWhile_sublist _).subset this)

theorem splitWS_subset {s tok : Str} (h : tok ∈ splitWS s) : ∀ c ∈ tok, c ∈ s :=
  splitWS_subset_aux s.length s le_rfl tok h

theorem splitWS_single {s : Str} (hne : s ≠ [])
    (h : ∀ c ∈ s, isWSChar c = false) : splitWS s = [s] := by
  match s with
  | [] => exact absurd rfl hne
  | c :: cs =>
    rw [splitWS_cons_tok cs (h c (List.mem_cons_self c cs))]
    rw [takeWhile_eq_self_of_all
      (fun x hx => by simp [h x (List.mem_cons_of_mem c hx)])]
    rw [dropWhile_eq_nil_of_all
      (fun x hx => by simp [h x (List.mem_cons_of_mem c hx)])]
    rw [splitWS_nil]

theorem splitWS_pair {t1 t2 : Str} (h1 : t1 ≠ []) (h2 : t2 ≠ [])
    (hw1 : ∀ c ∈ t1, isWSChar c = false) (hw2 : ∀ c ∈ t2, isWSChar c = false) :
    splitWS (t1 ++ ' ' :: t2) = [t1, t2] := by
  match t1 with
  | [] => exact absurd rfl h1
  | a :: as =>
    rw [List.cons_append, splitWS_cons_tok _ (hw1 a (List.mem_cons_self a as))]
    rw [takeWhile_append_all
      (fun x hx => by simp [hw1 x (List.mem_cons_of_mem a hx)])]
    rw [dropWhile_append_all
      (fun x hx => by simp [hw1 x (List.mem_cons_of_mem a hx)])]
    have hsp : isWSChar ' ' = true := by decide
    rw [List.takeWhile_cons, if_neg (by simp [hsp]), List.dropWhile_cons,
      if_neg (by simp [hsp]), List.append_nil]
    rw [splitWS_cons_ws _ hsp, splitWS_single h2 hw2]

/-! ## Lemmas about `pyStrip` -/

theorem pyStrip_noWS {s : Str} (h : ∀ c ∈ s, isWSChar c = false) :
    pyStrip s = s := by
  unfold pyStrip
  rw [dropWhile_eq_self_of_all h,
    dropWhile_eq_self_of_all (fun c hc => h c (List.mem_reverse.mp hc)),
    List.reverse_reverse]

/-! ## Lemmas about `fuzzify` -/

theorem mem_fuzzify_iff {w x : Str} :
    x ∈ fuzzify w ↔ (∃ n, 3 ≤ n ∧ n ≤ w.length ∧ x = w.take n) ∨ x = w := by
  unfold fuzzify
  simp only [List.mem_append, List.mem_map, List.mem_range', List.mem_singleton]
  constructor
  · rintro (⟨n, ⟨i, hi, rfl⟩, rfl⟩ | rfl)
    · exact Or.inl ⟨3 + 1 * i, by omega, by omega, rfl⟩
    · exact Or.inr rfl
  · rintro (⟨n, h3, hn, rfl⟩ | rfl)
    · exact Or.inl ⟨n, ⟨n - 3, by omega⟩, rfl⟩
    · exact Or.inr rfl

theorem take_mem_fuzzify {w : Str} {n : Nat} (h3 : 3 ≤ n) (hn : n ≤ w.length) :
    w.take n ∈ fuzzify w :=
  mem_fuzzify_iff.mpr (Or.inl ⟨n, h3, hn, rfl⟩)

theorem fuzzify_elem_sub {w x : Str} (h : x ∈ fuzzify w) : ∀ c ∈ x, c ∈ w := by
  rcases mem_fuzzify_iff.mp h with ⟨n, _, _, rfl⟩ | rfl
  · exact fun c hc => (List.take_sublist n w).subset hc
  · exact fun c hc => hc

theorem fuzzify_elem_ne {w x : Str} (hw : w ≠ []) (h : x ∈ fuzzify w) :
    x ≠ [] := by
  rcases mem_fuzzify_iff.mp h with ⟨n, h3, hn, rfl⟩ | rfl
  · intro hx
    have := congrArg List.length hx
    simp only [List.length_take, List.length_nil] at this
    have : w.length = 0 := by omega
    exact hw (List.eq_nil_of_length_eq_zero this)
  · exact hw

/-! ## Lemmas about the index (`termPositions`) and tokens -/

theorem mem_termPositions {corpus : List Document} {t : Str} {p : Nat} :
    p ∈ termPositions corpus t ↔
      p < corpus.length ∧ t ∈ docTerms (corpus.getD p default) := by
  unfold termPositions
  simp [List.mem_filter, List.mem_range]

theorem mem_docTerms {d : Document} {t : Str} :
    t ∈ docTerms d ↔
      ∃ tok ∈ splitWS (cleanString (joinVals d)), t ∈ fuzzify tok := by
  unfold docTerms
  simp [List.mem_flatMap]

/-- Characters of a whitespace token of a cleaned text, or of anything built
from its characters, are fixed by cleaning and are not whitespace. -/
theorem token_prefix_props {text w u : Str}
    (hw : w ∈ splitWS (cleanString text)) (hsub : ∀ c ∈ u, c ∈ w) :
    (∀ c ∈ u, isWSChar c = false) ∧ cleanString u = u :=
  ⟨fun c hc => (splitWS_tok hw).2 c (hsub c hc),
   cleanString_fixed u
     (fun c hc => mem_cleanString (splitWS_subset hw c (hsub c hc)))⟩

/-- Every term with an index entry is a non-empty whitespace-free string
that cleaning leaves unchanged. -/
theorem termEntry_props {corpus : List Document} {t : Str}
    (h : termPositions corpus t ≠ []) :
    t ≠ [] ∧ (∀ c ∈ t, isWSChar c = false) ∧ cleanString t = t := by
  rcases List.exists_mem_of_ne_nil _ h with ⟨p, hp⟩
  rcases mem_termPositions.mp hp with ⟨_, hterm⟩
  rcases mem_docTerms.mp hterm with ⟨tok, htok, hfz⟩
  have hprops := token_prefix_props htok (fuzzify_elem_sub hfz)
  exact ⟨fuzzify_elem_ne (splitWS_tok htok).1 hfz, hprops.1, hprops.2⟩

/-- Index membership depends only on the document value at the position. -/
theorem mem_termPositions_congr {corpus : List Document} {t : Str} {p q : Nat}
    (hq : q < corpus.length)
    (heq : corpus.getD p default = corpus.getD q default)
    (hp : p ∈ termPositions corpus t) : q ∈ termPositions corpus t := by
  rcases mem_termPositions.mp hp with ⟨_, hterm⟩
  exact mem_termPositions.mpr ⟨hq, heq ▸ hterm⟩

/-! ## Lemmas about `startsWith` and `containsSeg` -/

theorem startsWith_iff : ∀ {t s : Str},
    startsWith t s = true ↔ ∃ r, s = t ++ r := by
  intro t
  induction t with
  | nil => intro s; simp [startsWith]
  | cons a as ih =>
    intro s
    match s with
    | [] =>
      simp only [startsWith, List.cons_append]
      constructor
      · intro h; cases h
      · rintro ⟨r, h⟩; cases h
    | b :: bs =>
      simp only [startsWith, Bool.and_eq_true, beq_iff_eq, ih, List.cons_append]
      constructor
      · rintro ⟨rfl, r, rfl⟩; exact ⟨r, rfl⟩
      · rintro ⟨r, heq⟩
        injection heq with h1 h2
        exact ⟨h1.symm, r, h2⟩

theorem containsSeg_iff : ∀ {s t : Str},
    containsSeg t s = true ↔ ∃ u v, s = u ++ t ++ v := by
  intro s
  induction s with
  | nil =>
    intro t
    simp only [containsSeg, startsWith_iff]
    constructor
    · rintro ⟨r, h⟩
      exact ⟨[], r, by simpa using h⟩
    · rintro ⟨u, v, h⟩
      rcases List.append_eq_nil.mp (h.symm) with ⟨h1, h2⟩
      rcases List.append_eq_nil.mp h1 with ⟨rfl, rfl⟩
      exact ⟨v, by simpa using h2.symm ▸ rfl⟩
  | cons c cs ih =>
    intro t
    simp only [containsSeg, Bool.or_eq_true, startsWith_iff, ih]
    constructor
    · rintro (⟨r, h⟩ | ⟨u, v, h⟩)
      · exact ⟨[], r, by simpa using h⟩
      · exact ⟨c :: u, v, by simp [h]⟩
    · rintro ⟨u, v, h⟩
      match u with
      | [] => exact Or.inl ⟨v, by simpa using h⟩
      | x :: u' =>
        injection h with h1 h2
        exact Or.inr ⟨u', v, h2⟩

theorem containsSeg_of_startsWith {t s : Str} (h : startsWith t s = true) :
    containsSeg t s = true := by
  match s with
  | [] => simpa [containsSeg] using h
  | c :: cs => simp [containsSeg, h]

theorem containsSeg_cons_of {t : Str} {c : Char} {cs : Str}
    (h : containsSeg t cs = true) : containsSeg t (c :: cs) = true := by
  simp [containsSeg, h]

theorem startsWith_takeWhile {p : Char → Bool} :
    ∀ {t cs : Str}, startsWith t cs = true → (∀ x ∈ t, p x = true) →
      startsWith t (cs.takeWhile p) = true := by
  intro t
  induction t with
  | nil => intro cs _ _; rfl
  | cons a as ih =>
    intro cs h hall
    match cs with
    | [] => cases h
    | b :: bs =>
      simp only [startsWith, Bool.and_eq_true, beq_iff_eq] at h
      have hpb : p b = true := h.1 ▸ hall a (List.mem_cons_self a as)
      rw [List.takeWhile_cons, if_pos hpb]
      simp only [startsWith, Bool.and_eq_true, beq_iff_eq]
      exact ⟨h.1, ih h.2 (fun x hx => hall x (List.mem_cons_of_mem a hx))⟩

/-- The branch structure of `splitWS` on an arbitrary string, phrased with
`takeWhile` / `dropWhile`. -/
theorem splitWS_branch (cs : Str) :
    splitWS cs =
      if cs.takeWhile (fun x => !isWSChar x) = [] then
        splitWS (cs.dropWhile (fun x => !isWSChar x))
      else (cs.takeWhile (fun x => !isWSChar x)) ::
        splitWS (cs.dropWhile (fun x => !isWSChar x)) := by
  match cs with
  | [] => simp [splitWS_nil]
  | x :: cs' =>
    by_cases hw : isWSChar x
    · simp [List.takeWhile_cons, List.dropWhile_cons, hw]
    · simp only [List.takeWhile_cons, List.dropWhile_cons]
      have hb : (!isWSChar x) = true := by simp [hw]
      rw [if_pos hb, if_pos hb, if_neg (by simp)]
      exact splitWS_cons_tok cs' (by simpa using hw)

theorem mem_splitWS_cases {cs tok : Str} (h : tok ∈ splitWS cs) :
    tok = cs.takeWhile (fun x => !isWSChar x) ∨
      tok ∈ splitWS (cs.dropWhile (fun x => !isWSChar x)) := by
  rw [splitWS_branch cs] at h
  by_cases he : cs.takeWhile (fun x => !isWSChar x) = []
  · rw [if_pos he] at h; exact Or.inr h
  · rw [if_neg he] at h
    rcases List.mem_cons.mp h with h1 | h2
    · exact Or.inl h1
    · exact Or.inr h2

/-- A non-empty whitespace-free segment of `s` is a segment of one of the
whitespace tokens of `s`. -/
theorem containsSeg_splitWS : ∀ (s t : Str), t ≠ [] →
    (∀ c ∈ t, isWSChar c = false) → containsSeg t s = true →
    ∃ tok ∈ splitWS s, containsSeg t tok = true := by
  intro s
  induction s with
  | nil =>
    intro t hne _ h
    match t, hne with
    | a :: as, _ => cases h
  | cons c cs ih =>
    intro t hne hws h
    match t, hne with
    | a :: as, _ =>
      rw [show containsSeg (a :: as) (c :: cs) =
        (startsWith (a :: as) (c :: cs) || containsSeg (a :: as) cs) from rfl,
        Bool.or_eq_true] at h
      rcases h with hst | hseg
      · have hac : a = c ∧ startsWith as cs = true := by
          simpa [startsWith] using hst
        have hcw : isWSChar c = false := hac.1 ▸ hws a (List.mem_cons_self a as)
        rw [splitWS_cons_tok cs hcw]
        refine ⟨c :: cs.takeWhile (fun x => !isWSChar x), List.mem_cons_self _ _, ?_⟩
        apply containsSeg_of_startsWith
        simp only [startsWith, Bool.and_eq_true, beq_iff_eq]
        exact ⟨hac.1, startsWith_takeWhile hac.2
          (fun x hx => by simp [hws x (List.mem_cons_of_mem a hx)])⟩
      · rcases ih (a :: as) (by simp) hws hseg with ⟨tok, htok, hcont⟩
        by_cases hcw : isWSChar c
        · rw [splitWS_cons_ws cs hcw]
          exact ⟨tok, htok, hcont⟩
        · rw [splitWS_cons_tok cs (by simpa using hcw)]
          rcases mem_splitWS_cases htok with h1 | h2
          · subst h1
            exact ⟨c :: cs.takeWhile (fun x => !isWSChar x),
              List.mem_cons_self _ _, containsSeg_cons_of hcont⟩
          · exact ⟨tok, List.mem_cons_of_mem _ h2, hcont⟩

/-! ## Lemmas about `getResults` -/

theorem foldl_interList_eq_filter : ∀ (rest : List (List Nat)) (s : List Nat),
    rest.foldl interList s =
      s.filter (fun x => decide (∀ l ∈ rest, x ∈ l)) := by
  intro rest
  induction rest with
  | nil =>
    intro s
    rw [List.foldl_nil]
    have : ∀ x ∈ s, (decide (∀ l ∈ ([] : List (List Nat)), x ∈ l)) = true := by
      simp
    rw [List.filter_eq_self.mpr this]
  | cons l ls ih =>
    intro s
    rw [List.foldl_cons, ih (interList s l)]
    unfold interList
    rw [List.filter_filter]
    apply List.filter_congr
    intro x _
    simp [List.forall_mem_cons, Bool.and_comm]

theorem mem_foldl_interList {rest : List (List Nat)} {s : List Nat} {x : Nat} :
    x ∈ rest.foldl interList s ↔ x ∈ s ∧ ∀ l ∈ rest, x ∈ l := by
  rw [foldl_interList_eq_filter]
  simp [List.mem_filter]

theorem getResults_single {corpus : List Document} {u : Str} (hne : u ≠ [])
    (hws : ∀ c ∈ u, isWSChar c = false)
    (hmatch : termPositions corpus u ≠ []) :
    getResults corpus u =
      (termPositions corpus u).map (fun p => corpus.getD p default) := by
  unfold getResults
  rw [splitWS_single hne hws]
  rw [List.map_cons, List.map_nil, List.filter_cons,
    if_pos (by simp [List.isEmpty_iff, hmatch]), List.filter_nil]
  rfl

theorem getResults_pair {corpus : List Document} {t1 t2 : Str}
    (h1 : termPositions corpus t1 ≠ []) (h2 : termPositions corpus t2 ≠ []) :
    getResults corpus (t1 ++ ' ' :: t2) =
      (interList (termPositions corpus t1) (termPositions corpus t2)).map
        (fun p => corpus.getD p default) := by
  have p1 := termEntry_props h1
  have p2 := termEntry_props h2
  unfold getResults
  rw [splitWS_pair p1.1 p2.1 p1.2.1 p2.2.1]
  rw [List.map_cons, List.map_cons, List.map_nil, List.filter_cons,
    if_pos (by simp [List.isEmpty_iff, h1]), List.filter_cons,
    if_pos (by simp [List.isEmpty_iff, h2]), List.filter_nil]
  rfl

/-! ## Lemmas about `getField` -/

theorem lookup_zip_none : ∀ (fs vs : List Str) {f : Str}, f ∉ fs →
    (fs.zip vs).lookup f = none := by
  intro fs
  induction fs with
  | nil => intro vs f _; rfl
  | cons a fs ih =>
    intro vs f h
    match vs with
    | [] => rfl
    | v :: vs' =>
      have hne : f ≠ a := fun heq => h (heq ▸ List.mem_cons_self a fs)
      show List.lookup f ((a, v) :: fs.zip vs') = none
      simp only [List.lookup, beq_eq_false_iff_ne.mpr hne]
      exact ih vs' (fun hm => h (List.mem_cons_of_mem a hm))

theorem getField_none {d : Document} {f : Str} (h : f ∉ d.fields) :
    getField d f = none :=
  lookup_zip_none d.fields d.values h

/-! ## Structure lemmas for the evaluator -/

theorem validateQuery_none {q : Str} (h : 3 ≤ (pyStrip q).length) :
    validateQuery q 3 = none := by
  unfold validateQuery
  rw [if_neg (by omega)]

theorem evaluateQueryExc_no_sort {e : Engine} {q : Str} {ns : Nat}
    (hv : 3 ≤ (pyStrip q).length) :
    evaluateQueryExc e q none ns =
      .ok ⟨q, getResults e.corpus (cleanString q),
        (ns : ℚ) * (1 / 1000000)⟩ := by
  unfold evaluateQueryExc
  rw [validateQuery_none hv]

theorem evaluateQueryExc_sort {e : Engine} {q sb : Str} {ns : Nat}
    (hv : 3 ≤ (pyStrip q).length) (hsb : sb ≠ []) :
    evaluateQueryExc e q (some sb) ns =
      match sortResults (cleanString q) (getResults e.corpus (cleanString q)) sb with
      | .error err => .error err
      | .ok rs => .ok ⟨q, rs, (ns : ℚ) * (1 / 1000000)⟩ := by
  simp only [evaluateQueryExc, validateQuery_none hv, ne_eq, hsb,
    not_false_iff, if_true]

theorem ok_inv_helper {q : Str} {t : ℚ} {env : ResultsE} :
    ∀ {r : Except QueryError (List Document)},
    (match r with
     | .error err => (.error err : Except QueryError ResultsE)
     | .ok rs => .ok ⟨q, rs, t⟩) = .ok env →
    env.query = q ∧ env.executionTimeMs = t
  | .error _, h => by cases h
  | .ok _, h => by cases h; exact ⟨rfl, rfl⟩

theorem evaluateQueryExc_ok_inv {e : Engine} {q : Str} {sortBy : Option Str}
    {ns : Nat} {env : ResultsE}
    (h : evaluateQueryExc e q sortBy ns = .ok env) :
    env.query = q ∧ env.executionTimeMs = (ns : ℚ) * (1 / 1000000) := by
  unfold evaluateQueryExc at h
  split at h
  · cases h
  · exact ok_inv_helper h

/-! ## The claims -/

/-- C2: for every query whose trimmed length is below 3, `evaluate_query`
raises `InvalidQueryError` with the message
`"Query must be at least 3 characters"`, for every engine alike (the index
is never consulted) and with the engine state unchanged. -/
theorem C2_invalid_query (e : Engine) (q : Str) (sortBy : Option Str)
    (ns : Nat) (h : (pyStrip q).length < 3) :
    evaluateQuery e q sortBy ns =
      (.error (.invalidQuery ("Query must be at least 3 characters".data)), e) := by
  have hmsg : invalidQueryMsg 3 = "Query must be at least 3 characters".data := by
    decide
  show (evaluateQueryExc e q sortBy ns, e) = _
  unfold evaluateQueryExc validateQuery
  rw [if_pos h, hmsg]

/-- Witness for C2 at the two-character query `"ab"`. -/
theorem C2_invalid_query_witness :
    ((pyStrip "ab".data).length < 3) ∧
    evaluateQuery sampleEngine "ab".data none 0 =
      (.error (.invalidQuery ("Query must be at least 3 characters".data)),
        sampleEngine) :=
  ⟨by decide, C2_invalid_query sampleEngine "ab".data none 0 (by decide)⟩

/-- C8: for a word of length at least 3 the fuzzifications are exactly the
prefixes of length 3 to `len - 1` together with the word itself; for a
non-empty word of length below 3 only the word itself is produced. -/
theorem C8_fuzzify_prefixes (w : Str) :
    (3 ≤ w.length → ∀ x : Str,
      (x ∈ fuzzify w ↔
        (∃ n, 3 ≤ n ∧ n < w.length ∧ x = w.take n) ∨ x = w)) ∧
    (1 ≤ w.length → w.length < 3 → ∀ x : Str, (x ∈ fuzzify w ↔ x = w)) := by
  constructor
  · intro _ x
    rw [mem_fuzzify_iff]
    constructor
    · rintro (⟨n, hn3, hnle, rfl⟩ | rfl)
      · by_cases hlt : n < w.length
        · exact Or.inl ⟨n, hn3, hlt, rfl⟩
        · have hn : n = w.length := by omega
          subst hn
          exact Or.inr (List.take_length w)
      · exact Or.inr rfl
    · rintro (⟨n, hn3, hlt, rfl⟩ | rfl)
      · exact Or.inl ⟨n, hn3, by omega, rfl⟩
      · exact Or.inr rfl
  · intro _ hlt x
    rw [mem_fuzzify_iff]
    constructor
    · rintro (⟨n, hn3, hnle, rfl⟩ | rfl)
      · omega
      · rfl
    · rintro rfl
      exact Or.inr rfl

/-- Witness for C8 at the words `"abcd"` and `"ab"`. -/
theorem C8_fuzzify_prefixes_witness :
    ("abc".data ∈ fuzzify "abcd".data ↔
      (∃ n, 3 ≤ n ∧ n < ("abcd".data : Str).length ∧
        "abc".data = ("abcd".data : Str).take n) ∨ "abc".data = "abcd".data) ∧
    ("ab".data ∈ fuzzify "ab".data ↔ ("ab".data : Str) = "ab".data) :=
  ⟨((C8_fuzzify_prefixes "abcd".data).1 (by decide)) "abc".data,
   ((C8_fuzzify_prefixes "ab".data).2 (by decide) (by decide)) "ab".data⟩

/-- C9: `evaluate_query` leaves the engine's corpus, and hence the index
derived from it, exactly as they were, whether it returns an envelope or
raises. -/
theorem C9_readonly (e : Engine) (q : Str) (sortBy : Option Str) (ns : Nat) :
    (evaluateQuery e q sortBy ns).2 = e ∧
      ∀ t, termPositions (evaluateQuery e q sortBy ns).2.corpus t =
        termPositions e.corpus t :=
  ⟨rfl, fun _ => rfl⟩

/-- C7: every envelope produced by an accepted query serializes to exactly
`{meta: {query, execution_time_ms}, data}` with the original raw query
string, the nanosecond duration times `1e-6`, and `data` an array that is
empty (not absent) for zero-result queries. -/
theorem C7_envelope (e : Engine) (q : Str) (sortBy : Option Str) (ns : Nat)
    (env : ResultsE) (h : evaluateQueryExc e q sortBy ns = .ok env) :
    resultsToJson env = Json.jobj
      [("meta".data, Json.jobj
          [("query".data, Json.jstr q),
           ("execution_time_ms".data, Json.jnum ((ns : ℚ) * (1 / 1000000)))]),
       ("data".data, Json.jarr (env.data.map docJson))] ∧
    (env.data = [] → resultsToJson env = Json.jobj
      [("meta".data, Json.jobj
          [("query".data, Json.jstr q),
           ("execution_time_ms".data, Json.jnum ((ns : ℚ) * (1 / 1000000)))]),
       ("data".data, Json.jarr [])]) := by
  obtain ⟨hq, ht⟩ := evaluateQueryExc_ok_inv h
  constructor
  · unfold resultsToJson
    rw [hq, ht]
  · intro hd
    unfold resultsToJson
    rw [hq, ht, hd]
    rfl

/-- Witness for C7 at the zero-result query `"NotATerm"`. -/
theorem C7_envelope_witness :
    resultsToJson ⟨"NotATerm".data, [], ((0 : Nat) : ℚ) * (1 / 1000000)⟩ =
      Json.jobj
        [("meta".data, Json.jobj
            [("query".data, Json.jstr "NotATerm".data),
             ("execution_time_ms".data,
               Json.jnum (((0 : Nat) : ℚ) * (1 / 1000000)))]),
         ("data".data, Json.jarr [])] :=
  (C7_envelope sampleEngine "NotATerm".data none 0
    ⟨"NotATerm".data, [], ((0 : Nat) : ℚ) * (1 / 1000000)⟩ rfl).2 rfl

/-- C1: every prefix of length 3 up to the full length of a whitespace
token of a record's normalized concatenated field text, submitted as the
query, returns a result set containing that record. -/
theorem C1_prefix_law (e : Engine) (p : Nat) (hp : p < e.corpus.length)
    (w : Str) (hw : w ∈ splitWS (cleanString (joinVals (e.corpus.getD p default))))
    (n : Nat) (h3 : 3 ≤ n) (hn : n ≤ w.length) (ns : Nat) :
    ∃ env : ResultsE,
      evaluateQueryExc e (w.take n) none ns = .ok env ∧
      e.corpus.getD p default ∈ env.data := by
  have hsub : ∀ c ∈ w.take n, c ∈ w :=
    fun c hc => (List.take_sublist n w).subset hc
  obtain ⟨huws, hufix⟩ := token_prefix_props hw hsub
  have hulen : (w.take n).length = n := by
    rw [List.length_take]; omega
  have hune : w.take n ≠ [] := by
    intro h
    rw [h] at hulen
    simp at hulen
    omega
  have hstrip : 3 ≤ (pyStrip (w.take n)).length := by
    rw [pyStrip_noWS huws]; omega
  have hmem : p ∈ termPositions e.corpus (w.take n) :=
    mem_termPositions.mpr
      ⟨hp, mem_docTerms.mpr ⟨w, hw, take_mem_fuzzify h3 hn⟩⟩
  have hne : termPositions e.corpus (w.take n) ≠ [] := by
    intro h
    rw [h] at hmem
    cases hmem
  refine ⟨⟨w.take n, getResults e.corpus (cleanString (w.take n)),
    (ns : ℚ) * (1 / 1000000)⟩, evaluateQueryExc_no_sort hstrip, ?_⟩
  show e.corpus.getD p default ∈ getResults e.corpus (cleanString (w.take n))
  rw [hufix, getResults_single hune huws hne]
  exact List.mem_map_of_mem _ hmem

/-- Witness for C1: token `"hello"` of the sample record, prefix `"hel"`. -/
theorem C1_prefix_law_witness :
    (0 < sampleEngine.corpus.length) ∧
    ("hello".data ∈
      splitWS (cleanString (joinVals (sampleEngine.corpus.getD 0 default)))) ∧
    ∃ env : ResultsE,
      evaluateQueryExc sampleEngine (("hello".data : Str).take 3) none 0 =
        .ok env ∧
      sampleEngine.corpus.getD 0 default ∈ env.data :=
  ⟨by decide, by decide,
    C1_prefix_law sampleEngine 0 (by decide) "hello".data (by decide) 3
      (by decide) (by decide) 0⟩

/-- C3: for two terms that both have index entries, the result set of the
two-term query is, as a set of records, the intersection of the two
single-term result sets. -/
theorem C3_intersection (e : Engine) (t1 t2 : Str)
    (h1 : termPositions e.corpus t1 ≠ []) (h2 : termPositions e.corpus t2 ≠ []) :
    ∀ d : Document,
      d ∈ getResults e.corpus (t1 ++ ' ' :: t2) ↔
        (d ∈ getResults e.corpus t1 ∧ d ∈ getResults e.corpus t2) := by
  obtain ⟨hne1, hws1, _⟩ := termEntry_props h1
  obtain ⟨hne2, hws2, _⟩ := termEntry_props h2
  intro d
  rw [getResults_pair h1 h2, getResults_single hne1 hws1 h1,
    getResults_single hne2 hws2 h2]
  constructor
  · intro hd
    rcases List.mem_map.mp hd with ⟨p, hp, rfl⟩
    rcases List.mem_filter.mp hp with ⟨hp1, hp2⟩
    have hp2m : p ∈ termPositions e.corpus t2 := by simpa using hp2
    exact ⟨List.mem_map_of_mem _ hp1, List.mem_map_of_mem _ hp2m⟩
  · rintro ⟨hd1, hd2⟩
    rcases List.mem_map.mp hd1 with ⟨p, hp1, rfl⟩
    rcases List.mem_map.mp hd2 with ⟨r, hr2, heqd⟩
    have hrlen : r < e.corpus.length := (mem_termPositions.mp hr2).1
    have hr1 : r ∈ termPositions e.corpus t1 :=
      mem_termPositions_congr hrlen heqd.symm hp1
    refine List.mem_map.mpr ⟨r, ?_, heqd⟩
    exact List.mem_filter.mpr ⟨hr1, by simpa using hr2⟩

/-- Witness for C3: terms `"alpha"` and `"beta"` in the two-record sample
corpus; the record containing both is in all three result sets. -/
theorem C3_intersection_witness :
    pairDoc1 ∈ getResults pairEngine.corpus ("alpha".data ++ ' ' :: "beta".data) ↔
      (pairDoc1 ∈ getResults pairEngine.corpus "alpha".data ∧
        pairDoc1 ∈ getResults pairEngine.corpus "beta".data) :=
  C3_intersection pairEngine "alpha".data "beta".data (by decide) (by decide)
    pairDoc1

/-- C4: terms with no index entry are skipped: if no term of the query has
an entry the result is empty, and otherwise the result is exactly the
corpus records at the positions lying in every matched term's position
set. -/
theorem C4_skip_unmatched (corpus : List Document) (q : Str) :
    ((∀ t ∈ splitWS q, termPositions corpus t = []) →
      getResults corpus q = []) ∧
    ((splitWS q).filter (fun t => !(termPositions corpus t).isEmpty) ≠ [] →
      getResults corpus q =
        ((List.range corpus.length).filter
          (fun p => decide (∀ t ∈ (splitWS q).filter
            (fun u => !(termPositions corpus u).isEmpty),
              p ∈ termPositions corpus t))).map
          (fun p => corpus.getD p default)) := by
  constructor
  · intro hall
    unfold getResults
    have hnil : ((splitWS q).map (termPositions corpus)).filter
        (fun l => !l.isEmpty) = [] := by
      rw [List.filter_eq_nil_iff]
      intro l hl
      rcases List.mem_map.mp hl with ⟨t, ht, rfl⟩
      simp [List.isEmpty_iff, hall t ht]
    rw [hnil]
  · intro hmatch
    unfold getResults
    have hsets : ((splitWS q).map (termPositions corpus)).filter
        (fun l => !l.isEmpty) =
        ((splitWS q).filter
          (fun u => !(termPositions corpus u).isEmpty)).map
          (termPositions corpus) := by
      rw [List.filter_map]
      rfl
    rw [hsets]
    match hm : (splitWS q).filter
        (fun u => !(termPositions corpus u).isEmpty), hmatch with
    | t0 :: ts, _ =>
      rw [List.map_cons]
      show ((ts.map (termPositions corpus)).foldl interList
        (termPositions corpus t0)).map _ = _
      rw [foldl_interList_eq_filter]
      apply congrArg
      unfold termPositions
      rw [List.filter_filter]
      apply List.filter_congr
      intro p hp
      have hplen : p < corpus.length := List.mem_range.mp hp
      rw [Bool.and_comm, ← Bool.decide_and, decide_eq_decide]
      simp only [List.forall_mem_cons, List.forall_mem_map]
      constructor
      · rintro ⟨hdoc, hrest⟩
        refine ⟨mem_termPositions.mpr ⟨hplen, hdoc⟩, hrest⟩
      · rintro ⟨h0, hrest⟩
        exact ⟨(mem_termPositions.mp h0).2, hrest⟩

/-- Witness for C4: in the two-record sample corpus, the query
`"qqq www"` matches nothing, and in `"alpha zzz"` the unmatched term
`"zzz"` is skipped. -/
theorem C4_skip_unmatched_witness :
    getResults pairEngine.corpus "qqq www".data = [] ∧
    getResults pairEngine.corpus "alpha zzz".data =
      ((List.range pairEngine.corpus.length).filter
        (fun p => decide (∀ t ∈ (splitWS "alpha zzz".data).filter
          (fun u => !(termPositions pairEngine.corpus u).isEmpty),
            p ∈ termPositions pairEngine.corpus t))).map
        (fun p => pairEngine.corpus.getD p default) :=
  ⟨(C4_skip_unmatched pairEngine.corpus "qqq www".data).1 (by decide),
   (C4_skip_unmatched pairEngine.corpus "alpha zzz".data).2 (by decide)⟩

theorem splitWS_ne_of_getResults_ne {corpus : List Document} {q : Str}
    (h : getResults corpus q ≠ []) : splitWS q ≠ [] := by
  intro hq
  apply h
  unfold getResults
  rw [hq]
  rfl

/-- Counterexample for C6: with the non-empty result set of the query
`"hello"`, the sort field `"Count"` sanitizes to `"count"`, which is no
field of the records — yet `getattr` resolves it to the inherited tuple
method, so `_sort_results` raises the uncaught `AttributeError` from
`_clean_string`, whose message does not name the valid fields, instead of
the guided one the claim promises. -/
theorem C6_counterexample :
    getResults sampleEngine.corpus (cleanString "hello".data) = [sampleDoc] ∧
    makePythonIdentifier "Count".data ∉ sampleDoc.fields ∧
    evaluateQueryExc sampleEngine "hello".data (some "Count".data) 0 =
      .error .attributeErrorNoLower :=
  ⟨by decide, by decide, rfl⟩

/-- C6 (amended): when an accepted query has a non-empty result set and the
sanitized sort field resolves to no attribute of the records at all — it
is no field name, none of the inherited tuple/namedtuple attribute names,
and no dunder name — `evaluate_query` raises the `AttributeError`
carrying the sanitized name and the valid field names of a result
record. -/
theorem C6_unknown_sort_field (e : Engine) (q sb : Str) (ns : Nat)
    (hv : 3 ≤ (pyStrip q).length) (hsb : sb ≠ [])
    (hres : getResults e.corpus (cleanString q) ≠ [])
    (hfield : ∀ d ∈ getResults e.corpus (cleanString q),
      makePythonIdentifier sb ∉ d.fields)
    (hattr : makePythonIdentifier sb ∉ tupleAttrNames)
    (_hdund : startsWith "__".data (makePythonIdentifier sb) = false) :
    ∃ d ∈ getResults e.corpus (cleanString q),
      evaluateQueryExc e q (some sb) ns =
        .error (.attributeError (makePythonIdentifier sb) d.fields) := by
  obtain ⟨t0, ts, hts⟩ :=
    List.exists_cons_of_ne_nil (splitWS_ne_of_getResults_ne hres)
  obtain ⟨d0, ds, hds⟩ := List.exists_cons_of_ne_nil hres
  have hd0 : d0 ∈ getResults e.corpus (cleanString q) := by
    rw [hds]; exact List.mem_cons_self d0 ds
  have hgetattr : getAttr d0 (makePythonIdentifier sb) = none := by
    unfold getAttr
    rw [getField_none (hfield d0 hd0), if_neg hattr]
  have hpart : partitionSortable t0 (makePythonIdentifier sb) (d0 :: ds) =
      .error (.attributeError (makePythonIdentifier sb) d0.fields) := by
    unfold partitionSortable
    rw [hgetattr]
  have hsort : sortResults (cleanString q)
      (getResults e.corpus (cleanString q)) sb =
      .error (.attributeError (makePythonIdentifier sb) d0.fields) := by
    unfold sortResults
    rw [hts, hds]
    simp only [hpart]
  refine ⟨d0, hd0, ?_⟩
  rw [evaluateQueryExc_sort hv hsb, hsort]

/-- Witness for the amended C6: sorting the non-empty results of `"hello"`
by `"Nope"`, which resolves to no field and no inherited attribute. -/
theorem C6_unknown_sort_field_witness :
    ∃ d ∈ getResults sampleEngine.corpus (cleanString "hello".data),
      evaluateQueryExc sampleEngine "hello".data (some "Nope".data) 0 =
        .error (.attributeError (makePythonIdentifier "Nope".data) d.fields) :=
  C6_unknown_sort_field sampleEngine "hello".data "Nope".data 0 (by decide)
    (by decide) (by decide) (by decide) (by decide) (by decide)

/-- Counterexample for C10: the query `"!!!"` has trimmed length 3 (valid)
and an empty result set, yet with the non-empty `sort_by` `"document"`
`evaluate_query` does not return an envelope: it raises the `IndexError`
from `query.split()[0]`, because the cleaned query has no tokens. -/
theorem C10_counterexample :
    3 ≤ (pyStrip ("!!!".data : Str)).length ∧
    getResults sampleEngine.corpus (cleanString "!!!".data) = [] ∧
    evaluateQueryExc sampleEngine "!!!".data (some "document".data) 0 =
      .error .indexError :=
  ⟨by decide, by decide, rfl⟩

/-- C10 (amended): for a valid-length query whose cleaned form still has at
least one token and whose result set is empty, any non-empty `sort_by` —
resolvable or not — yields a normal envelope with an empty data array and
no field-resolution error. -/
theorem C10_empty_results_sort (e : Engine) (q sb : Str) (ns : Nat)
    (hv : 3 ≤ (pyStrip q).length)
    (hterm : splitWS (cleanString q) ≠ [])
    (hres : getResults e.corpus (cleanString q) = [])
    (hsb : sb ≠ []) :
    evaluateQueryExc e q (some sb) ns =
      .ok ⟨q, [], (ns : ℚ) * (1 / 1000000)⟩ := by
  obtain ⟨t0, ts, hts⟩ := List.exists_cons_of_ne_nil hterm
  have hsort : sortResults (cleanString q)
      (getResults e.corpus (cleanString q)) sb = .ok [] := by
    unfold sortResults
    rw [hts, hres]
    show Except.ok (List.mergeSort [] _ ++ []) = .ok []
    rw [List.mergeSort_nil]
    rfl
  rw [evaluateQueryExc_sort hv hsb, hsort]

/-- Witness for the amended C10: the query `"zzz"` on the empty corpus,
sorted by a field name that resolves to nothing. -/
theorem C10_empty_results_sort_witness :
    evaluateQueryExc emptyEngine "zzz".data (some "Whatever".data) 0 =
      .ok ⟨"zzz".data, [], ((0 : Nat) : ℚ) * (1 / 1000000)⟩ :=
  C10_empty_results_sort emptyEngine "zzz".data "Whatever".data 0 (by decide)
    (by decide) (by decide) (by decide)

theorem partitionSortable_ok {term sb : Str} : ∀ {results : List Document},
    (∀ d ∈ results, (getField d sb).isSome) →
    partitionSortable term sb results =
      .ok (results.filter (sortableB term sb),
           results.filter (fun d => !sortableB term sb d)) := by
  intro results
  induction results with
  | nil => intro _; rfl
  | cons d ds ih =>
    intro h
    obtain ⟨text, htext⟩ := Option.isSome_iff_exists.mp
      (h d (List.mem_cons_self d ds))
    have hrec := ih (fun x hx => h x (List.mem_cons_of_mem d hx))
    have hcond : containsSeg term (cleanString text) = sortableB term sb d := by
      unfold sortableB sortFieldText
      rw [htext]
      rfl
    have hgetattr : getAttr d sb = some (.pstr text) := by
      unfold getAttr
      rw [htext]
    unfold partitionSortable
    rw [hgetattr, hrec]
    simp only [hcond]
    by_cases hc : sortableB term sb d
    · simp [List.filter_cons, hc]
    · simp only [Bool.not_eq_true] at hc
      simp [List.filter_cons, hc]

theorem sortResults_ok {query : Str} {results : List Document} {sortBy : Str}
    {term : Str} {ts : List Str} (hq : splitWS query = term :: ts)
    (hres : ∀ d ∈ results, (getField d (makePythonIdentifier sortBy)).isSome) :
    sortResults query results sortBy = .ok
      ((results.filter (sortableB term (makePythonIdentifier sortBy))).mergeSort
        (fun a b => decide (sortKeyD term (makePythonIdentifier sortBy) a ≤
          sortKeyD term (makePythonIdentifier sortBy) b)) ++
       results.filter (fun d => !sortableB term (makePythonIdentifier sortBy) d)) := by
  unfold sortResults
  rw [hq]
  simp only [partitionSortable_ok hres]

/-- C5: with a resolvable sort field, `_sort_results` returns the records
whose cleaned field contains the anchor term, ordered ascending by the
index of the first whitespace token of that field containing the term
(stably: records with equal keys keep their pre-sort relative order),
followed by all remaining records in their original result order. -/
theorem C5_sort_behaviour (query : Str) (results : List Document)
    (sortBy : Str) (term : Str) (ts : List Str)
    (hq : splitWS query = term :: ts)
    (hres : ∀ d ∈ results, (getField d (makePythonIdentifier sortBy)).isSome) :
    ∃ SS : List Document,
      sortResults query results sortBy = .ok (SS ++
        results.filter
          (fun d => !sortableB term (makePythonIdentifier sortBy) d)) ∧
      SS.Pairwise (fun a b =>
        sortKeyD term (makePythonIdentifier sortBy) a ≤
        sortKeyD term (makePythonIdentifier sortBy) b) ∧
      (∀ k : Nat,
        SS.filter
          (fun d => sortKeyD term (makePythonIdentifier sortBy) d == k) =
        (results.filter (sortableB term (makePythonIdentifier sortBy))).filter
          (fun d => sortKeyD term (makePythonIdentifier sortBy) d == k)) ∧
      (∀ d ∈ SS,
        sortKeyD term (makePythonIdentifier sortBy) d <
          (splitWS (sortFieldText (makePythonIdentifier sortBy) d)).length ∧
        containsSeg term
          ((splitWS (sortFieldText (makePythonIdentifier sortBy) d)).getD
            (sortKeyD term (makePythonIdentifier sortBy) d) []) = true ∧
        ∀ j < sortKeyD term (makePythonIdentifier sortBy) d,
          containsSeg term
            ((splitWS (sortFieldText (makePythonIdentifier sortBy) d)).getD
              j []) = false) := by
  have htrans : ∀ a b c : Document,
      decide (sortKeyD term (makePythonIdentifier sortBy) a ≤
        sortKeyD term (makePythonIdentifier sortBy) b) = true →
      decide (sortKeyD term (makePythonIdentifier sortBy) b ≤
        sortKeyD term (makePythonIdentifier sortBy) c) = true →
      decide (sortKeyD term (makePythonIdentifier sortBy) a ≤
        sortKeyD term (makePythonIdentifier sortBy) c) = true := by
    intro a b c hab hbc
    exact decide_eq_true
      (Nat.le_trans (of_decide_eq_true hab) (of_decide_eq_true hbc))
  have htotal : ∀ a b : Document,
      (decide (sortKeyD term (makePythonIdentifier sortBy) a ≤
          sortKeyD term (makePythonIdentifier sortBy) b) ||
        decide (sortKeyD term (makePythonIdentifier sortBy) b ≤
          sortKeyD term (makePythonIdentifier sortBy) a)) = true := by
    intro a b
    rcases Nat.le_total (sortKeyD term (makePythonIdentifier sortBy) a)
      (sortKeyD term (makePythonIdentifier sortBy) b) with h | h
    · simp [h]
    · simp [h]
  refine ⟨(results.filter
      (sortableB term (makePythonIdentifier sortBy))).mergeSort
      (fun a b => decide (sortKeyD term (makePythonIdentifier sortBy) a ≤
        sortKeyD term (makePythonIdentifier sortBy) b)),
    sortResults_ok hq hres, ?_, ?_, ?_⟩
  · exact (List.sorted_mergeSort htrans htotal
      (results.filter (sortableB term (makePythonIdentifier sortBy)))).imp
      (fun h => of_decide_eq_true h)
  · intro k
    have hperm := List.mergeSort_perm
      (results.filter (sortableB term (makePythonIdentifier sortBy)))
      (fun a b => decide (sortKeyD term (makePythonIdentifier sortBy) a ≤
        sortKeyD term (makePythonIdentifier sortBy) b))
    have hBP : ((results.filter
        (sortableB term (makePythonIdentifier sortBy))).filter
        (fun d => sortKeyD term (makePythonIdentifier sortBy) d == k)).Pairwise
        (fun a b => decide (sortKeyD term (makePythonIdentifier sortBy) a ≤
          sortKeyD term (makePythonIdentifier sortBy) b) = true) := by
      apply List.pairwise_of_forall_mem_list
      intro a ha b hb
      have hka : sortKeyD term (makePythonIdentifier sortBy) a = k := by
        simpa using (List.mem_filter.mp ha).2
      have hkb : sortKeyD term (makePythonIdentifier sortBy) b = k := by
        simpa using (List.mem_filter.mp hb).2
      simp [hka, hkb]
    have hsubl := List.sublist_mergeSort htrans htotal hBP
      (List.filter_sublist
        (l := results.filter (sortableB term (makePythonIdentifier sortBy))))
    have hself : ((results.filter
        (sortableB term (makePythonIdentifier sortBy))).filter
        (fun d => sortKeyD term (makePythonIdentifier sortBy) d == k)).filter
        (fun d => sortKeyD term (makePythonIdentifier sortBy) d == k) =
        (results.filter
          (sortableB term (makePythonIdentifier sortBy))).filter
          (fun d => sortKeyD term (makePythonIdentifier sortBy) d == k) := by
      apply List.filter_eq_self.mpr
      intro a ha
      exact (List.mem_filter.mp ha).2
    have hsub2 := hself ▸ List.Sublist.filter
      (fun d => sortKeyD term (makePythonIdentifier sortBy) d == k) hsubl
    have hpermf := hperm.filter
      (fun d => sortKeyD term (makePythonIdentifier sortBy) d == k)
    exact (hsub2.eq_of_length hpermf.length_eq.symm).symm
  · intro d hd
    have hdin := List.mem_mergeSort.mp hd
    have hsort : sortableB term (makePythonIdentifier sortBy) d = true :=
      (List.mem_filter.mp hdin).2
    have hterm : term ∈ splitWS query := by
      rw [hq]; exact List.mem_cons_self _ _
    obtain ⟨htne, htws⟩ := splitWS_tok hterm
    obtain ⟨tok, htok, hcont⟩ := containsSeg_splitWS
      (sortFieldText (makePythonIdentifier sortBy) d) term htne htws hsort
    have hkey : sortKeyD term (makePythonIdentifier sortBy) d =
        (splitWS (sortFieldText (makePythonIdentifier sortBy) d)).findIdx
          (fun tok => containsSeg term tok) := rfl
    have hlt : sortKeyD term (makePythonIdentifier sortBy) d <
        (splitWS (sortFieldText (makePythonIdentifier sortBy) d)).length := by
      rw [hkey]
      exact List.findIdx_lt_length_of_exists ⟨tok, htok, hcont⟩
    refine ⟨hlt, ?_, ?_⟩
    · rw [List.getD_eq_getElem?_getD, List.getElem?_eq_getElem hlt,
        Option.getD_some]
      exact @List.findIdx_getElem _ (fun tok => containsSeg term tok)
        (splitWS (sortFieldText (makePythonIdentifier sortBy) d)) hlt
    · intro j hj
      have hjlt : j < (splitWS
          (sortFieldText (makePythonIdentifier sortBy) d)).length :=
        Nat.lt_trans hj hlt
      rw [List.getD_eq_getElem?_getD, List.getElem?_eq_getElem hjlt,
        Option.getD_some]
      have := @List.not_of_lt_findIdx _ (fun tok => containsSeg term tok)
        (splitWS (sortFieldText (makePythonIdentifier sortBy) d)) j (hkey ▸ hj)
      simpa using this

/-- Witness for C5: sorting four concrete records on `"HeaderB"` with
anchor term `"target"`. -/
theorem C5_sort_behaviour_witness :
    ∃ SS : List Document,
      sortResults "target".data [sortDocA, sortDocB, sortDocD, sortDocC]
          "HeaderB".data = .ok (SS ++
        [sortDocA, sortDocB, sortDocD, sortDocC].filter
          (fun d => !sortableB "target".data
            (makePythonIdentifier "HeaderB".data) d)) ∧
      SS.Pairwise (fun a b =>
        sortKeyD "target".data (makePythonIdentifier "HeaderB".data) a ≤
        sortKeyD "target".data (makePythonIdentifier "HeaderB".data) b) ∧
      (∀ k : Nat,
        SS.filter (fun d =>
          sortKeyD "target".data (makePythonIdentifier "HeaderB".data) d == k) =
        ([sortDocA, sortDocB, sortDocD, sortDocC].filter
          (sortableB "target".data (makePythonIdentifier "HeaderB".data))).filter
          (fun d =>
            sortKeyD "target".data
              (makePythonIdentifier "HeaderB".data) d == k)) ∧
      (∀ d ∈ SS,
        sortKeyD "target".data (makePythonIdentifier "HeaderB".data) d <
          (splitWS (sortFieldText
            (makePythonIdentifier "HeaderB".data) d)).length ∧
        containsSeg "target".data
          ((splitWS (sortFieldText (makePythonIdentifier "HeaderB".data) d)).getD
            (sortKeyD "target".data
              (makePythonIdentifier "HeaderB".data) d) []) = true ∧
        ∀ j < sortKeyD "target".data (makePythonIdentifier "HeaderB".data) d,
          containsSeg "target".data
            ((splitWS (sortFieldText
              (makePythonIdentifier "HeaderB".data) d)).getD j []) = false) :=
  C5_sort_behaviour "target".data [sortDocA, sortDocB, sortDocD, sortDocC]
    "HeaderB".data "target".data [] (by decide) (by decide)
